import Mathlib

/-
Verification development for the uioc IoC container (src/src/main.js).

The JavaScript source is shallowly embedded as pure Lean functions:
- the mutable `this.components` registry becomes an insertion-ordered
  association list `Registry` threaded through every operation;
- JS exceptions become `Except Err`;
- the asynchronous module loader is assumed conforming (spec section 6:
  it calls its completion callback exactly once, with the loaded module
  values positionally matching the requested names); with that contract
  the whole pipeline is deterministic and is modelled as a synchronous
  run that records every loader invocation in a trace;
- recursion through `addComponent` (anonymous-component expansion) and
  `getComponent` (dependency injection) is bounded by an explicit fuel
  parameter; running out of fuel yields `Err.fuelOut` / `none`, which the
  theorems treat as "no result".

The repository ships only `main.js`; the collaborators `./Container`,
`./DependencyParser` and `./util` are required but absent from src/.
Definitions for those carry a doc comment starting with
"Modelled from the spec:" and follow the specification text.
-/

/-! ## String constants of the source -/

/-- All string literals used by the embedding, named so they can be reused. -/
def emptyS : String := ""

def dashS : String := "-"

/-- The reserved anonymous-component marker, line 12: var ANONY_PREFIX = "^uioc-". -/
def anonyMarker : String := "^uioc-"

/-- Role marker for argument imports (line 262). -/
def argMarker : String := "$arg."

/-- Role marker for property imports (line 271). -/
def propMarker : String := "$prop."

/-- JS stringification of a plain object, as produced by `String({...})`.
In `addComponent` (line 111) the code reads `this.components[id]` where `id`
is the whole map object, so the property key actually consulted is this
string. -/
def objKeyStr : String := "[object Object]"

/-- The duplicate-registration warning text of line 112 (with the JS
stringification of the map object prepended). -/
def dupWarnMsg : String := objKeyStr ++ " has been add! This will be no effect"

/-! ## Substring test (JS String.prototype.indexOf !== -1, line 242) -/

/-- Whether `pat` occurs as an infix of `s`, over character lists. -/
def listInfix (pat : List Char) : List Char → Bool
  | [] => pat.isEmpty
  | c :: t => pat.isPrefixOf (c :: t) || listInfix pat t

/-- JS `s.indexOf(pat) !== -1`. -/
def strContains (s pat : String) : Bool :=
  listInfix pat.toList s.toList

/-! ## Data model -/

/-- Component lifecycle scope (lines 48-49). -/
inductive Scope where
  | transient : Scope
  | singleton : Scope
  | static : Scope
deriving DecidableEq, Repr

/-- Creator values. A creator starts as a user-supplied function value
(`userFn`, an opaque token), a module-member name (`str`), or is absent;
`createCreator` (lines 212-232) rewrites it into a resolved member
(`memberFn`), a factory wrapper over a member (`memberFactory`), a whole
module object used as creator (`moduleVal`, the `creator || module` case of
line 213), or a constructor wrapper (`ctorWrap`, lines 226-231). -/
inductive CreatorV where
  | str : String → CreatorV
  | userFn : Nat → CreatorV
  | memberFn : String → String → CreatorV
  | memberFactory : String → String → CreatorV
  | moduleVal : String → CreatorV
  | ctorWrap : CreatorV → CreatorV
deriving DecidableEq, Repr

/-- JS `typeof creator === "function"`. A string is not a function; a loaded
module object is not a function; everything else here is. -/
def CreatorV.isFn : CreatorV → Bool
  | .str _ => false
  | .moduleVal _ => false
  | _ => true

mutual
/-- A dependency config value (DependencyConfig, lines 58-66): a literal
(opaque token), a reference object `\x7b $ref: id \x7d`, or an import object
`\x7b $import: id, ...overrides \x7d`. -/
inductive Dep where
  | lit : Nat → Dep
  | ref : String → Dep
  | imp : String → Config → Dep

/-- A raw component configuration as passed to `addComponent`: the fields
read by `createComponent` (lines 189-204), each optional (absent fields fall
back to defaults / to the imported definition on merge). Field order:
args, properties, scope, creator, module, isFactory, auto. -/
inductive Config where
  | mk : Option (List Dep) → Option (List (String × Dep)) → Option Scope →
      Option CreatorV → Option String → Option Bool → Option Bool → Config
end

def Config.args : Config → Option (List Dep)
  | .mk a _ _ _ _ _ _ => a

def Config.properties : Config → Option (List (String × Dep))
  | .mk _ p _ _ _ _ _ => p

def Config.scope : Config → Option Scope
  | .mk _ _ s _ _ _ _ => s

def Config.creator : Config → Option CreatorV
  | .mk _ _ _ c _ _ _ => c

def Config.module : Config → Option String
  | .mk _ _ _ _ m _ _ => m

def Config.isFactory : Config → Option Bool
  | .mk _ _ _ _ _ f _ => f

def Config.auto : Config → Option Bool
  | .mk _ _ _ _ _ _ a => a

/-- The all-absent configuration. -/
def Config.empty : Config := .mk none none none none none none none

/-- Modelled from the spec: `u.hasImport` from the absent `./util` module -
true exactly for a dependency config carrying `$import` (spec 4.1). -/
def Dep.isImp : Dep → Bool
  | .imp _ _ => true
  | _ => false

/-- The normalized registered component record built by `createComponent`
(lines 189-204). The JS `instance` cache slot is not modelled here; the
singleton cache lives in the Container state `CState`. -/
structure Component where
  id : String
  args : List Dep
  properties : List (String × Dep)
  anonyDeps : Option (List String)
  argDeps : Option (List String)
  propDeps : Option (List String)
  setterDeps : Option (List String)
  scope : Scope
  creator : Option CreatorV
  module : Option String
  isFactory : Bool
  auto : Bool

/-- JS `typeof component.creator === "function"`. -/
def creatorIsFn (c : Component) : Bool :=
  match c.creator with
  | some cr => cr.isFn
  | none => false

/-- The `this.components` object: an insertion-ordered association list. -/
abbrev Registry := List (String × Component)

/-- Property read `reg[k]` on the components object. -/
def lookupC : Registry → String → Option Component
  | [], _ => none
  | (k, c) :: rest, x => if k = x then some c else lookupC rest x

/-- Property write `reg[k] = c` on the components object: an existing key
keeps its position, a new key is appended (JS property order). -/
def insertC : Registry → String → Component → Registry
  | [], k, c => [(k, c)]
  | (k1, c1) :: rest, k, c =>
      if k1 = k then (k, c) :: rest else (k1, c1) :: insertC rest k c

/-! ## createCreator and createComponent (lines 189-232) -/

/-- Embedding of `createCreator(component, module)` (lines 212-232):
resolve a string creator against the loaded module and wrap non-factory,
non-static creators in the constructor wrapper. `mod` is the name of the
loaded module handed to the callback (none at registration time). -/
def createCreator (c : Component) (mod : Option String) : Component :=
  let creator0 : CreatorV :=
    match c.creator with
    | some cr => cr
    | none => .moduleVal (mod.getD emptyS)
  let creator1 : CreatorV :=
    match creator0 with
    | .str s =>
        if !c.isFactory || c.scope = Scope.static then .memberFn (mod.getD emptyS) s
        else .memberFactory (mod.getD emptyS) s
    | cr => cr
  if !c.isFactory && !(c.scope = Scope.static) then
    { c with creator := some (.ctorWrap creator1) }
  else
    { c with creator := some creator1 }

/-- Embedding of `createComponent(id, config)` (lines 189-210). -/
def createComponent (id : String) (cfg : Config) : Component :=
  let c : Component :=
    { id := id
      args := cfg.args.getD []
      properties := cfg.properties.getD []
      anonyDeps := none
      argDeps := none
      propDeps := none
      setterDeps := none
      scope := cfg.scope.getD Scope.transient
      creator := cfg.creator
      module := cfg.module
      isFactory := cfg.isFactory.getD false
      auto := cfg.auto.getD false }
  if creatorIsFn c then createCreator c none else c

/-! ## Anonymous components and addComponent (lines 102-126, 234-276) -/

/-- Errors: a missing `$import` target (the throw of lines 237-239), the
TypeError JS would raise on a vanished registry entry, and fuel exhaustion
of the model. -/
inductive Err where
  | importMissing : String → Err
  | typeErr : Err
  | fuelOut : Err
deriving DecidableEq, Repr

/-- Result of `addComponent`: the updated registry and the warnings emitted. -/
abbrev AddOut := Registry × List String

/-- The recursive `addComponent` capability threaded to the helpers. -/
abbrev AddC := Registry → List (String × Config) → Except Err AddOut

/-- Modelled from the spec: `u.merge(refConfig, config)` from the absent
`./util` module - shallow-merge of the override config onto a copy of the
imported definition (spec 4.2 step 3): every present override field wins,
absent fields are taken from the imported component record. The `$import`
key has already been removed and the `id` field written by
`createAnonymousComponent` is ignored by `createComponent`, so neither is
carried here. -/
def mergeConfig (refC : Component) (ov : Config) : Config :=
  .mk (some (ov.args.getD refC.args))
    (some (ov.properties.getD refC.properties))
    (some (ov.scope.getD refC.scope))
    (match ov.creator with
      | some cr => some cr
      | none => refC.creator)
    (match ov.module with
      | some m => some m
      | none => refC.module)
    (some (ov.isFactory.getD refC.isFactory))
    (some (ov.auto.getD refC.auto))

/-- The synthesized anonymous id of lines 241-242:
`component.id + "-" + idPrefix + importId`, with the anonymous marker
prepended unless the raw id already contains it (`indexOf !== -1`). -/
def synthId (ownerId role importId : String) : String :=
  let raw := ownerId ++ dashS ++ role ++ importId
  (if strContains raw anonyMarker then emptyS else anonyMarker) ++ raw

/-- Embedding of `createAnonymousComponent(context, component, config,
idPrefix)` (lines 234-247): resolve the imported definition (throwing when
absent), synthesize the id, merge, and register the merge through the
recursive `addComponent` capability. Returns the new registry, the synthetic
id and the warnings of the nested registration. -/
def createAnonymousComponent (addC : AddC) (reg : Registry)
    (ownerId importId : String) (ov : Config) (role : String) :
    Except Err (Registry × String × List String) :=
  match lookupC reg importId with
  | none => .error (.importMissing importId)
  | some refC =>
      let sid := synthId ownerId role importId
      match addC reg [(sid, mergeConfig refC ov)] with
      | .error e => .error e
      | .ok (reg1, w) => .ok (reg1, sid, w)

/-- The argument loop of `transferAnonymousComponents` (lines 259-266),
which walks `args` from the last index down to 0. The input list here is
already reversed (processing order); the rebuilt list is returned in the
same processing order and reversed back by the caller. Returns
(registry, rewritten deps, synthetic ids in push order, warnings). -/
def transferDepsRev (addC : AddC) (ownerId role : String) :
    Registry → List Dep → Except Err (Registry × List Dep × List String × List String)
  | reg, [] => .ok (reg, [], [], [])
  | reg, d :: rest =>
      match d with
      | .imp m ov =>
          match createAnonymousComponent addC reg ownerId m ov role with
          | .error e => .error e
          | .ok (reg1, sid, w1) =>
              match transferDepsRev addC ownerId role reg1 rest with
              | .error e => .error e
              | .ok (reg2, rest1, ids1, w2) =>
                  .ok (reg2, Dep.ref sid :: rest1, sid :: ids1, w1 ++ w2)
      | d0 =>
          match transferDepsRev addC ownerId role reg rest with
          | .error e => .error e
          | .ok (reg2, rest1, ids1, w2) =>
              .ok (reg2, d0 :: rest1, ids1, w2)

/-- The property loop of `transferAnonymousComponents` (lines 268-275),
walking the properties in insertion order. -/
def transferProps (addC : AddC) (ownerId : String) :
    Registry → List (String × Dep) →
    Except Err (Registry × List (String × Dep) × List String × List String)
  | reg, [] => .ok (reg, [], [], [])
  | reg, (n, d) :: rest =>
      match d with
      | .imp m ov =>
          match createAnonymousComponent addC reg ownerId m ov propMarker with
          | .error e => .error e
          | .ok (reg1, sid, w1) =>
              match transferProps addC ownerId reg1 rest with
              | .error e => .error e
              | .ok (reg2, rest1, ids1, w2) =>
                  .ok (reg2, (n, Dep.ref sid) :: rest1, sid :: ids1, w1 ++ w2)
      | d0 =>
          match transferProps addC ownerId reg rest with
          | .error e => .error e
          | .ok (reg2, rest1, ids1, w2) =>
              .ok (reg2, (n, d0) :: rest1, ids1, w2)

/-- Embedding of `transferAnonymousComponents(context, component)`
(lines 255-276): rewrite every `$import` among args (reverse index order)
and properties (key order) into a `$ref` of a freshly registered anonymous
component, recording the synthetic ids in `anonyDeps` in push order. -/
def transferAnonymous (addC : AddC) (reg : Registry) (c : Component) :
    Except Err (Registry × Component × List String) :=
  match transferDepsRev addC c.id argMarker reg c.args.reverse with
  | .error e => .error e
  | .ok (reg1, argsRev, ids1, w1) =>
      match transferProps addC c.id reg1 c.properties with
      | .error e => .error e
      | .ok (reg2, props1, ids2, w2) =>
          .ok (reg2,
            { c with
                args := argsRev.reverse
                properties := props1
                anonyDeps := some (ids1 ++ ids2) },
            w1 ++ w2)

/-- Modelled from the spec: `DependencyParser.getDepsFromArgs` (the parser
module is absent from src/) - the ordered dependency-id list of an argument
list: each `\x7b $ref: id \x7d` contributes its id, literals contribute
nothing (spec 4.1); `$import` values have been rewritten to `$ref` before
this runs (spec 4.2). -/
def getDepsFromArgs (args : List Dep) : List String :=
  args.filterMap fun d =>
    match d with
    | .ref i => some i
    | _ => none

/-- Modelled from the spec: `DependencyParser.getDepsFromProperties` - the
dependency-id list of a property map, in key order (spec 4.1). -/
def getDepsFromProperties (props : List (String × Dep)) : List String :=
  props.filterMap fun p =>
    match p.2 with
    | .ref i => some i
    | _ => none

/-- One iteration of the post-registration loop of `addComponent`
(lines 120-125) for a single id: fetch the component, expand anonymous
imports when `anonyDeps` is still null, then compute `argDeps` and
`propDeps` from the (rewritten) args and properties. The fetched record is
written back, matching the in-place mutation of the JS object. A vanished
entry would make JS throw a TypeError on `component.anonyDeps`. -/
def processTransfer (addC : AddC) (reg : Registry) (idk : String) :
    Except Err (Registry × List String) :=
  match lookupC reg idk with
  | none => .error .typeErr
  | some c =>
      let step : Except Err (Registry × Component × List String) :=
        if c.anonyDeps.isNone then transferAnonymous addC reg c
        else .ok (reg, c, [])
      match step with
      | .error e => .error e
      | .ok (reg1, c1, w) =>
          let c2 := { c1 with
            argDeps := some (getDepsFromArgs c1.args)
            propDeps := some (getDepsFromProperties c1.properties) }
          .ok (insertC reg1 idk c2, w)

/-- The post-registration loop of lines 120-125, over the freshly registered
ids in reverse registration order (the caller passes `ids.reverse`). -/
def transferLoop (addC : AddC) :
    Registry → List String → Except Err (Registry × List String)
  | reg, [] => .ok (reg, [])
  | reg, idk :: rest =>
      match processTransfer addC reg idk with
      | .error e => .error e
      | .ok (reg1, w1) =>
          match transferLoop addC reg1 rest with
          | .error e => .error e
          | .ok (reg2, w2) => .ok (reg2, w1 ++ w2)

/-- The registration loop of lines 110-117. The duplicate check of line 111
reads `this.components[id]` where `id` is the whole map object, so the key
actually consulted is the JS stringification `objKeyStr` - when such a key
exists the entry is skipped with a warning, otherwise the component is
(re)stored under `k` unconditionally. Returns (registry, registered ids in
order, warnings). -/
def regLoop : Registry → List (String × Config) → Registry × List String × List String
  | reg, [] => (reg, [], [])
  | reg, (k, cfg) :: rest =>
      if (lookupC reg objKeyStr).isSome then
        let (r, ids, ws) := regLoop reg rest
        (r, ids, dupWarnMsg :: ws)
      else
        let (r, ids, ws) := regLoop (insertC reg k (createComponent k cfg)) rest
        (r, k :: ids, ws)

/-- Embedding of `IoC.prototype.addComponent` (lines 102-126) in its
map-of-ids form, with fuel bounding the recursion through anonymous
component expansion. -/
def addComponentMap : Nat → Registry → List (String × Config) → Except Err AddOut
  | 0, _, _ => .error .fuelOut
  | fuel + 1, reg, m =>
      let (reg1, ids, ws) := regLoop reg m
      match transferLoop (addComponentMap fuel) reg1 ids.reverse with
      | .error e => .error e
      | .ok (reg2, w2) => .ok (reg2, ws ++ w2)

/-- The single-id form of `addComponent` (lines 104-108): wraps the pair
into a one-entry map and re-enters the map form. -/
def addComponentOne (fuel : Nat) (reg : Registry) (id : String) (cfg : Config) :
    Except Err AddOut :=
  addComponentMap fuel reg [(id, cfg)]

/-! ## Instance values and the Container (spec 4.5; Container.js absent) -/

/-- Runtime JS values observable through the pipeline: `undefined`, `null`,
a constructed instance (identified by a nonce, standing for JS reference
identity), a creator value handed out by static scope, and the IoC
container reference returned by `getComponent`. -/
inductive JsV where
  | undef : JsV
  | jnull : JsV
  | obj : Nat → JsV
  | cv : CreatorV → JsV
  | iocRef : Nat → JsV
deriving DecidableEq, Repr

def JsV.isObj : JsV → Bool
  | .obj _ => true
  | _ => false

/-- Container state: the singleton cache and the nonce supply for fresh
instances. -/
structure CState where
  cache : List (String × JsV)
  nextN : Nat
deriving DecidableEq, Repr

def CState.init : CState := ⟨[], 0⟩

def cacheLookup : List (String × JsV) → String → Option JsV
  | [], _ => none
  | (k, v) :: rest, x => if k = x then some v else cacheLookup rest x

/-- Modelled from the spec: `Container.createInstance(component,
continuation)` (Container.js is absent from src/), per spec 4.5: static
scope hands the creator value itself to the continuation uncalled;
singleton scope reuses the cached instance or constructs and caches a
fresh one; transient scope always constructs a fresh instance. A missing
component resolves to `undefined` (spec 4.4 step 2 / 7). Construction is
abstracted to drawing a fresh nonce: constructor-argument resolution does
not affect which value fills a result slot, only the contents of the opaque
instance. -/
def createInstance (cst : CState) (oc : Option Component) : CState × JsV :=
  match oc with
  | none => (cst, .undef)
  | some c =>
      match c.scope with
      | .static =>
          (cst, match c.creator with
            | none => .jnull
            | some cr => .cv cr)
      | .singleton =>
          match cacheLookup cst.cache c.id with
          | some v => (cst, v)
          | none => (⟨(c.id, .obj cst.nextN) :: cst.cache, cst.nextN + 1⟩, .obj cst.nextN)
      | .transient => (⟨cst.cache, cst.nextN + 1⟩, .obj cst.nextN)

/-! ## Dependency-module aggregation (spec 4.1; DependencyParser.js absent) -/

/-- Insert into a module-to-component-ids map: a present module name gets
the component appended to its pending list, a new module name is added
(spec 4.1: "a module may back multiple components"). -/
def addToMap : List (String × List String) → String → String → List (String × List String)
  | [], k, v => [(k, [v])]
  | (k1, vs) :: rest, k, v =>
      if k1 = k then (k1, vs ++ [v]) :: rest else (k1, vs) :: addToMap rest k v

/-- The backing module name of a component whose creator is not yet
callable: its `module` field when present, else the creator string, else
the dependency id itself. -/
def moduleNameOf (c : Component) (depId : String) : String :=
  match c.module with
  | some m => m
  | none =>
      match c.creator with
      | some (.str s) => s
      | _ => depId

/-- Modelled from the spec: `DependencyParser.getDependentModules(component,
moduleMap, depIds)` (spec 4.1) - for each dependency id, look up its
component definition; if its creator is not yet resolved to a callable, add
the owning module name as a key of the map, appending the component into
that module's pending list; ids with no definition contribute nothing. The
`component` argument is carried for shape fidelity with the JS call sites
(lines 155, 317, 322) but the spec describes the walk over `depIds` only. -/
def getDependentModules (reg : Registry) (_c : Component)
    (acc : List (String × List String)) (deps : List String) :
    List (String × List String) :=
  deps.foldl (fun acc d =>
    match lookupC reg d with
    | none => acc
    | some dc => if creatorIsFn dc then acc else addToMap acc (moduleNameOf dc d) dc.id) acc

/-! ## loadComponentModules (lines 278-295) -/

/-- Binding of one pending component inside the loader callback (line 290):
skip when the creator is already a function, otherwise resolve it against
the loaded module `m`. -/
def bindStep (reg : Registry) (m : String) (cid : String) : Registry :=
  match lookupC reg cid with
  | none => reg
  | some c => if creatorIsFn c then reg else insertC reg cid (createCreator c (some m))

/-- The inner loop of lines 288-291, over the pending components of one
module in reverse order. The caller passes the reversed pending list. -/
def bindComps (m : String) : Registry → List String → Registry
  | reg, [] => reg
  | reg, cid :: rest => bindComps m (bindStep reg m cid) rest

/-- The outer loop of lines 285-292, over the loaded modules in reverse
request order; a conforming loader (spec section 6) passes the module
values positionally, so position `i` of the callback arguments is the value
of module `modules[i]`. The caller passes the reversed map. -/
def bindMods : Registry → List (String × List String) → Registry
  | reg, [] => reg
  | reg, (m, comps) :: rest => bindMods (bindComps m reg comps.reverse) rest

/-- Embedding of `loadComponentModules(context, moduleMaps, cb)`
(lines 278-295): collect the module names (map key order), invoke the
external loader exactly once with that list, and in its completion callback
bind every pending component whose creator is not yet a function; then the
onward continuation runs exactly once. Returns the post-binding registry
and the module-name list of the single loader invocation; the caller
records that list in the trace and continues, which is the model of the
single `cb()` of line 293. -/
def loadComponentModulesReg (reg : Registry) (maps : List (String × List String)) :
    Registry × List String :=
  (bindMods reg maps.reverse, maps.map Prod.fst)

/-! ## getComponent and createInstances (lines 143-162, 297-378) -/

/-- Observable events of a run: the unregistered-id warnings (line 152,
recorded as the offending id) and the module-name list of every loader
invocation. -/
structure Trace where
  warnings : List String
  loaderCalls : List (List String)
deriving DecidableEq, Repr

def Trace.nil : Trace := ⟨[], []⟩

instance : Append Trace := ⟨fun a b => ⟨a.warnings ++ b.warnings, a.loaderCalls ++ b.loaderCalls⟩⟩

/-- Outcome of one `getComponent` run: final registry and container state,
the trace, and the instance list handed to the callback (one slot per
requested id). -/
structure RunOut where
  reg : Registry
  cst : CState
  tr : Trace
  results : List JsV

/-- The recursive `getComponent` capability (the `context` handed to the
injection helpers). -/
abbrev GetC := Registry → CState → List String → Option RunOut

/-- State threaded through the `createInstances` loop. -/
structure CIState where
  reg : Registry
  cst : CState
  tr : Trace
  slots : List JsV

structure InjOut where
  reg : Registry
  cst : CState
  tr : Trace

/-- Modelled from the spec: `getDepsFromSetters(instance, properties)` of
the absent DependencyParser - setter dependencies are discovered by
inspecting the instance for `set<PropertyName>` methods (spec 4.4 step 5);
instances are modelled opaquely without method tables, so no setter methods
are discoverable and the list is empty. -/
def getDepsFromSetters (_inst : JsV) (_props : List (String × Dep)) : List String :=
  []

/-- Embedding of `injectDeps` with `injectPropDependencies` and
`injectSetterDependencies` (lines 341-378): the property sub-pipeline and
the setter sub-pipeline each issue a nested `getComponent` for their
dependency ids; with a synchronous conforming loader the property pipeline
completes before the setter pipeline starts, and the overall completion
(the two-flag gate of lines 342-349, studied separately as `injected`)
fires once after both. The `setProperty` writes into the opaque instance
are not observable and are not recorded. -/
def injectDepsRun (getC : GetC) (reg : Registry) (cst : CState) (c : Component) :
    Option InjOut :=
  match getC reg cst (c.propDeps.getD []) with
  | none => none
  | some o1 =>
      match getC o1.reg o1.cst (c.setterDeps.getD []) with
      | none => none
      | some o2 => some ⟨o2.reg, o2.cst, o1.tr ++ o2.tr⟩

/-- One `task(index, component)` completion (lines 313-333): store the
instance into its slot, and for a present component compute the
property/setter module requirements (caching `setterDeps` on first use for
`auto` components), load them, and inject. -/
def ciStep (getC : GetC) (ids : List String) (st : CIState) (i : Nat) : Option CIState :=
  let tid := ids.getD i emptyS
  let comp := lookupC st.reg tid
  let p := createInstance st.cst comp
  let slots1 := st.slots.set i p.2
  match comp with
  | none => some ⟨st.reg, p.1, st.tr, slots1⟩
  | some c =>
      let m1 := getDependentModules st.reg c [] (c.propDeps.getD [])
      let lazySetter := c.setterDeps.isNone && c.auto
      let c1 := if lazySetter then
          { c with setterDeps := some (getDepsFromSetters p.2 c.properties) }
        else c
      let reg1 := if lazySetter then insertC st.reg tid c1 else st.reg
      let needModules :=
        if lazySetter then getDependentModules reg1 c1 m1 (c1.setterDeps.getD []) else m1
      let lm := loadComponentModulesReg reg1 needModules
      match injectDepsRun getC lm.1 p.1 c1 with
      | none => none
      | some inj => some ⟨inj.reg, inj.cst, st.tr ++ ⟨[], [lm.2]⟩ ++ inj.tr, slots1⟩

/-- The construction loop of lines 335-338, over the given index list
(the caller passes `(range n).reverse`: i from `ids.length - 1` down to 0). -/
def ciAux (getC : GetC) (ids : List String) : List Nat → CIState → Option CIState
  | [], st => some st
  | i :: rest, st =>
      match ciStep getC ids st i with
      | none => none
      | some st1 => ciAux getC ids rest st1

/-- Embedding of `createInstances(ids, cb)` (lines 297-339): a pre-sized
slot array (`Array(ids.length)`, reading as undefined), an immediate
zero-argument callback for an empty request, otherwise per-id pipelines in
reverse index order. The shared countdown of lines 307-310 is embedded
separately as `doneStep`; in this synchronous model the callback fires
exactly when the last pipeline finishes, delivering `slots`. -/
def createInstancesRun (getC : GetC) (reg : Registry) (cst : CState)
    (ids : List String) : Option CIState :=
  let slots := List.replicate ids.length JsV.undef
  if ids.length = 0 then some ⟨reg, cst, Trace.nil, slots⟩
  else ciAux getC ids (List.range ids.length).reverse ⟨reg, cst, Trace.nil, slots⟩

/-- The argument-dependency module aggregation of the getComponent loop
(lines 148-157): one merged map over all registered requested ids. -/
def argModules (reg : Registry) (ids : List String) : List (String × List String) :=
  ids.foldl (fun acc t =>
    match lookupC reg t with
    | none => acc
    | some c => getDependentModules reg c acc (c.argDeps.getD [])) []

/-- Embedding of `IoC.prototype.getComponent(ids, cb)` (lines 143-162) on an
already-normalized id list: warn for unregistered ids, aggregate the
argument-dependency modules of the registered ones, perform the single
load pass, then create the instances. Fuel bounds the nested `getComponent`
recursion of dependency injection. -/
def getComponentRun : Nat → Registry → CState → List String → Option RunOut
  | 0, _, _, _ => none
  | fuel + 1, reg, cst, ids =>
      let warns := ids.filter fun t => (lookupC reg t).isNone
      let lm := loadComponentModulesReg reg (argModules reg ids)
      match createInstancesRun (getComponentRun fuel) lm.1 cst ids with
      | none => none
      | some ci => some ⟨ci.reg, ci.cst, Trace.mk warns [lm.2] ++ ci.tr, ci.slots⟩

/-- The IoC container object: an identity tag standing for the JS object
reference, plus the components registry. -/
structure IoC where
  selfId : Nat
  components : Registry

/-- The `ids` argument of `getComponent`: a single id or an id list. -/
inductive IdsArg where
  | one : String → IdsArg
  | many : List String → IdsArg

/-- Line 144: `ids = ids instanceof Array ? ids : [ids]`. -/
def normalizeIds : IdsArg → List String
  | .one s => [s]
  | .many l => l

/-- Outcome of the public `getComponent` call: the container after the run
(same identity, possibly updated registry), the container state, trace,
callback results, and the value returned by the method itself (line 161:
`return this`). -/
structure GOut where
  ioc : IoC
  cst : CState
  tr : Trace
  results : List JsV
  ret : JsV

/-- The public `IoC#getComponent` (lines 143-162), both argument forms. -/
def IoC.getComponent (fuel : Nat) (ioc : IoC) (cst : CState) (arg : IdsArg) :
    Option GOut :=
  match getComponentRun fuel ioc.components cst (normalizeIds arg) with
  | none => none
  | some out => some ⟨⟨ioc.selfId, out.reg⟩, out.cst, out.tr, out.results, .iocRef ioc.selfId⟩

/-! ## The two completion gates (lines 307-310 and 341-352) -/

/-- The shared countdown of `createInstances` (lines 307-310):
`--count === 0 && cb(...)`. One pipeline completion decrements the counter
and fires the callback exactly when it reaches zero. The counter is an
integer, as in JS, so an excess signal driving it negative can never fire
again. -/
def doneStep (count : Int) : Int × Bool :=
  (count - 1, count - 1 == 0)

/-- Apply `k` pipeline-completion signals to the countdown, collecting the
fire flag of each signal. -/
def runDones : Nat → Int → List Bool
  | 0, _ => []
  | k + 1, c =>
      let p := doneStep c
      p.2 :: runDones k p.1

/-- Which sub-pipeline signals the per-instance injection gate. -/
inductive InjKind where
  | prop : InjKind
  | setter : InjKind
deriving DecidableEq, Repr

/-- The two-flag completion gate of `injectDeps` (lines 342-345). -/
structure InjGate where
  prop : Bool
  setter : Bool
deriving DecidableEq, Repr

/-- The `injected` closure of lines 346-349: record the signalled flag and
fire the instance-completion callback exactly when both flags are set. -/
def injected (g : InjGate) (k : InjKind) : InjGate × Bool :=
  let g1 : InjGate :=
    match k with
    | .prop => ⟨true, g.setter⟩
    | .setter => ⟨g.prop, true⟩
  (g1, g1.prop && g1.setter)

/-- Apply a sequence of injection signals to the gate, collecting the fire
flag of each signal. -/
def runInjected : InjGate → List InjKind → List Bool
  | _, [] => []
  | g, k :: ks =>
      let p := injected g k
      p.2 :: runInjected p.1 ks

/-! ## Concrete fixtures for the claim theorems -/

def aId : String := "a"

def bId : String := "b"

def ownId : String := "own"

def mId : String := "missing"

def pN : String := "p"

def xId : String := "x"

def yId : String := "y"

def m1Id : String := "m1"

def m2Id : String := "m2"

def memberY : String := "Y"

/-- Extract the payload of a successful `addComponent`. -/
def exOk : Except Err AddOut → AddOut
  | .ok p => p
  | .error _ => ([], [])

/-- A minimal configuration with an inline function creator. -/
def cfgFn (sc : Scope) (n : Nat) : Config :=
  Config.mk (some []) (some []) (some sc) (some (.userFn n)) none none none

def c1cfgA : Config := cfgFn Scope.singleton 0

def c1cfgB : Config := cfgFn Scope.static 1

def c1reg1 : Registry := (exOk (addComponentOne 3 [] aId c1cfgA)).1

def c1res2 : Except Err AddOut := addComponentOne 3 c1reg1 aId c1cfgB

def c1reg2 : Registry := (exOk c1res2).1

def c3regSing : Registry :=
  (exOk (addComponentMap 3 [] [(aId, cfgFn Scope.singleton 0), (bId, cfgFn Scope.singleton 1)])).1

def c3regTrans : Registry :=
  (exOk (addComponentMap 3 [] [(aId, cfgFn Scope.transient 0), (bId, cfgFn Scope.transient 1)])).1

def c3regB : Registry := (exOk (addComponentOne 3 [] bId (cfgFn Scope.transient 1))).1

def c3idsABA : List String := [aId, bId, aId]

def c3runSing : Option RunOut := getComponentRun 4 c3regSing CState.init c3idsABA

def c3runTrans : Option RunOut := getComponentRun 4 c3regTrans CState.init c3idsABA

def c3runMissing : Option RunOut := getComponentRun 4 c3regB CState.init c3idsABA

def c6res : Option RunOut := getComponentRun 4 c3regB CState.init [aId, bId]

def c6out : RunOut := c6res.getD ⟨[], CState.init, Trace.nil, []⟩

def c5cfg : Config :=
  Config.mk (some [Dep.imp mId Config.empty]) none none (some (.userFn 0)) none none none

def c7regB : Registry := (exOk (addComponentOne 3 [] bId (cfgFn Scope.transient 5))).1

def c7cfg : Config :=
  Config.mk (some [Dep.lit 1, Dep.imp bId Config.empty])
    (some [(pN, Dep.imp bId Config.empty)])
    (some Scope.transient) (some (.userFn 6)) none none none

def c7res : Except Err AddOut := addComponentOne 4 c7regB ownId c7cfg

def c7reg2 : Registry := (exOk c7res).1

def c7w : List String := (exOk c7res).2

def c8cfgY : Config :=
  Config.mk (some []) (some []) (some Scope.transient) (some (.str memberY)) none none none

def c8reg : Registry :=
  (exOk (addComponentMap 3 [] [(xId, cfgFn Scope.transient 0), (yId, c8cfgY)])).1

def c8maps : List (String × List String) := [(m1Id, [xId]), (m2Id, [yId])]

def c10ioc : IoC := ⟨7, []⟩

def c10res : Option GOut := IoC.getComponent 2 c10ioc CState.init (.many [])

def c10out : GOut := c10res.getD ⟨⟨0, []⟩, CState.init, Trace.nil, [], .undef⟩

/-- A default component record, used only as a `getD` fallback in closed
witness statements. -/
def defaultComp : Component :=
  ⟨emptyS, [], [], none, none, none, none, Scope.transient, none, none, false, false⟩

def c8compX : Component := (lookupC c8reg xId).getD defaultComp


/-- Rewriting performed on one dependency by anonymous-component expansion:
an import of `m` becomes a reference to the synthesized id, everything else
is untouched. -/
def depSubst (ownerId role : String) : Dep → Dep
  | .imp m _ => .ref (synthId ownerId role m)
  | d => d

/-- The synthetic ids contributed by the imports of a dependency list, in
list order. -/
def depImportIds (ownerId role : String) (l : List Dep) : List String :=
  l.filterMap fun d =>
    match d with
    | .imp m _ => some (synthId ownerId role m)
    | _ => none

/-- Property-map version of `depSubst`. -/
def propSubst (ownerId : String) (p : String × Dep) : String × Dep :=
  (p.1, depSubst ownerId propMarker p.2)

/-- Property-map version of `depImportIds`. -/
def propImportIds (ownerId : String) (l : List (String × Dep)) : List String :=
  l.filterMap fun p =>
    match p.2 with
    | .imp m _ => some (synthId ownerId propMarker m)
    | _ => none

/-- The registry never maps the JS-stringified object key: the state of a
container that has only seen ordinary registrations. -/
def objAbsent (r : Registry) : Prop := lookupC r objKeyStr = none

/-- Registry growth: every present key stays present (all registry writes
are property writes, nothing ever deletes). -/
def regMono (r r1 : Registry) : Prop :=
  ∀ x, (lookupC r x).isSome = true → (lookupC r1 x).isSome = true

/-- Soundness package for a recursive `addComponent` capability: ordinary
registrations keep the object key absent, only grow the registry, and
register every key of the map. -/
def AddGood (addC : AddC) : Prop :=
  ∀ reg m out, (∀ p ∈ m, p.1 ≠ objKeyStr) → objAbsent reg → addC reg m = .ok out →
    objAbsent out.1 ∧ regMono reg out.1 ∧ ∀ p ∈ m, (lookupC out.1 p.1).isSome = true




/-- Domain preservation across one `getComponent` run: a key is registered
afterwards exactly when it was registered before (binding and setter-dep
caching replace existing entries, nothing is added or removed). -/
def regSameDom (r r1 : Registry) : Prop :=
  ∀ x, (lookupC r1 x).isSome = (lookupC r x).isSome

/-- Container-state wellformedness: every cached singleton is a constructed
instance. -/
def cacheOk (cst : CState) : Prop :=
  cst.cache.all (fun p => p.2.isObj) = true

/-- Soundness package for a recursive `getComponent` capability. -/
def GetCGood (getC : GetC) : Prop :=
  ∀ reg cst ids out, getC reg cst ids = some out → cacheOk cst →
    regSameDom reg out.reg ∧ cacheOk out.cst




/-- The singleton [a, b, a] run outcome (getD against a dummy default). -/
def c3outSing : RunOut := c3runSing.getD ⟨[], CState.init, Trace.nil, []⟩



/-! ## Registry lemmas -/

theorem lookupC_insertC (r : Registry) (k x : String) (c : Component) :
    lookupC (insertC r k c) x = if k = x then some c else lookupC r x := by
  induction r with
  | nil => simp [insertC, lookupC]
  | cons p rest ih =>
      obtain ⟨k1, c1⟩ := p
      by_cases h1 : k1 = k
      · subst h1
        by_cases h2 : k1 = x <;> simp [insertC, lookupC, h2]
      · by_cases h2 : k1 = x
        · subst h2
          have hkx : ¬ k = k1 := fun h => h1 h.symm
          simp [insertC, lookupC, h1, hkx]
        · simp [insertC, lookupC, h1, h2, ih]

/-! ## Claim C1 -/

/-- C1: the claim states that re-adding an already registered id is a
warned no-op keeping the original definition. The duplicate guard of
line 111 reads `this.components[id]` with `id` being the whole config map
(property key "[object Object]") instead of `this.components[k]`, so on a
normal registry a second `addComponent("a", ...)` silently replaces the
first definition: here `a` is registered as a singleton with creator
`userFn 0`, re-registered as static with creator `userFn 1`, and the
second registration succeeds with no warning and a replaced record. -/
theorem c1_duplicate_overwrites :
    (lookupC c1reg1 aId).map Component.scope = some Scope.singleton ∧
    c1res2 = Except.ok (c1reg2, []) ∧
    (lookupC c1reg2 aId).map Component.scope = some Scope.static ∧
    (lookupC c1reg2 aId).map Component.creator = some (some (CreatorV.userFn 1)) :=
  ⟨rfl, rfl, rfl, rfl⟩

/-! ## Claim C2 -/

/-- C2 counterexample: with an empty id list the callback does receive zero
arguments, but the module loader is invoked: the run on a fresh container
records exactly one loader call, carrying the empty module-name list, so
the loader-call trace is not empty. -/
theorem c2_counterexample :
    getComponentRun 1 [] CState.init [] =
      some ⟨[], CState.init, ⟨[], [[]]⟩, []⟩ ∧
    ([[]] : List (List String)) ≠ [] :=
  ⟨rfl, by decide⟩

/-- C2 (amended): for every container state, `getComponent` with an empty
id list warns nothing, invokes the callback with zero arguments, and
invokes the module loader exactly once, with an empty module-name list
(a conforming loader then completes immediately, lines 278-295). -/
theorem c2_empty_ids (fuel : Nat) (reg : Registry) (cst : CState) :
    getComponentRun (fuel + 1) reg cst [] = some ⟨reg, cst, ⟨[], [[]]⟩, []⟩ := rfl

/-! ## Claim C4 -/

theorem runDones_shape (k : Nat) :
    runDones (k + 1) ((k : Int) + 1) = List.replicate k false ++ [true] := by
  induction k with
  | zero => decide
  | succ n ih =>
      have hsub : ((n : Int) + 1 + 1) - 1 = (n : Int) + 1 := by ring
      have hflag : (((n : Int) + 1 + 1) - 1 == 0) = false := by
        rw [hsub]
        exact beq_eq_false_iff_ne.mpr (by omega)
      show (((n : Int) + 1 + 1 - 1 == 0) :: runDones (n + 1) ((n : Int) + 1 + 1 - 1)) =
        List.replicate (n + 1) false ++ [true]
      rw [hflag, hsub, ih]
      rfl

theorem count_true_replicate_false (k : Nat) :
    ((List.replicate k false ++ [true]).count true) = 1 := by
  induction k with
  | zero => decide
  | succ n ih => simpa [List.replicate, List.count_cons] using ih

/-- C4: the shared countdown of `createInstances` (lines 307-310,
embedded as `doneStep`) starting at `N >= 1` fires the caller's callback
exactly once, on the N-th and last pipeline-completion signal and never
before, whatever order the asynchronous pipelines complete in (the
countdown is order-insensitive: each completion decrements once). -/
theorem c4_countdown (n : Nat) (h : 1 ≤ n) :
    runDones n (n : Int) = List.replicate (n - 1) false ++ [true] ∧
    (runDones n (n : Int)).count true = 1 := by
  obtain ⟨k, rfl⟩ : ∃ k, n = k + 1 := ⟨n - 1, by omega⟩
  have e : runDones (k + 1) (((k + 1 : Nat) : Int)) = List.replicate k false ++ [true] := by
    have := runDones_shape k
    push_cast
    exact this
  refine ⟨by simpa using e, ?_⟩
  rw [e]
  exact count_true_replicate_false k

/-- C4 witness at three pipelines. -/
theorem c4_witness :
    runDones 3 (3 : Int) = List.replicate 2 false ++ [true] ∧
    (runDones 3 (3 : Int)).count true = 1 :=
  c4_countdown 3 (by decide)

/-! ## Claim C9 -/

/-- C9: the two-flag completion gate of `injectDeps` (lines 341-352,
embedded as `injected`): the property and setter sub-pipelines each signal
once, in either completion order, and the instance-completion callback
fires exactly once, on the second signal and never on the first. -/
theorem c9_two_flag_gate :
    runInjected ⟨false, false⟩ [InjKind.prop, InjKind.setter] = [false, true] ∧
    runInjected ⟨false, false⟩ [InjKind.setter, InjKind.prop] = [false, true] := by
  decide

/-! ## Claim C10 -/

/-- C10: `getComponent` always returns the IoC container instance itself
(line 161: `return this`), for every ids argument (single id or list) and
whether or not the ids resolve, enabling method chaining; the returned
object is the same container identity that was invoked. -/
theorem c10_returns_self (fuel : Nat) (ioc : IoC) (cst : CState) (arg : IdsArg)
    (out : GOut) (h : IoC.getComponent fuel ioc cst arg = some out) :
    out.ret = JsV.iocRef ioc.selfId ∧ out.ioc.selfId = ioc.selfId := by
  unfold IoC.getComponent at h
  cases hr : getComponentRun fuel ioc.components cst (normalizeIds arg) with
  | none => rw [hr] at h; exact absurd h (by simp)
  | some o =>
      rw [hr] at h
      have : (⟨⟨ioc.selfId, o.reg⟩, o.cst, o.tr, o.results, .iocRef ioc.selfId⟩ : GOut) = out := by
        simpa using h
      subst this
      exact ⟨rfl, rfl⟩

/-- C10 witness. -/
theorem c10_witness :
    c10out.ret = JsV.iocRef c10ioc.selfId ∧ c10out.ioc.selfId = c10ioc.selfId :=
  c10_returns_self 2 c10ioc CState.init (.many []) c10out rfl

/-! ## Claim C8 -/

theorem bindStep_keep (reg : Registry) (m cid x : String) (c : Component)
    (hx : lookupC reg x = some c) (hfn : creatorIsFn c = true) :
    lookupC (bindStep reg m cid) x = some c := by
  unfold bindStep
  cases h1 : lookupC reg cid with
  | none => simpa using hx
  | some c2 =>
      by_cases h2 : creatorIsFn c2
      · simp [h2, hx]
      · simp [h2]
        rw [lookupC_insertC]
        by_cases h3 : cid = x
        · subst h3
          rw [hx] at h1
          injection h1 with h1
          subst h1
          exact absurd hfn (by simpa using h2)
        · simpa [h3] using hx

theorem bindComps_keep (m x : String) (c : Component) :
    ∀ (l : List String) (reg : Registry), lookupC reg x = some c → creatorIsFn c = true →
    lookupC (bindComps m reg l) x = some c := by
  intro l
  induction l with
  | nil => intro reg hx _; simpa [bindComps] using hx
  | cons cid rest ih =>
      intro reg hx hfn
      exact ih (bindStep reg m cid) (bindStep_keep reg m cid x c hx hfn) hfn

theorem bindMods_keep (x : String) (c : Component) :
    ∀ (maps : List (String × List String)) (reg : Registry),
    lookupC reg x = some c → creatorIsFn c = true →
    lookupC (bindMods reg maps) x = some c := by
  intro maps
  induction maps with
  | nil => intro reg hx _; simpa [bindMods] using hx
  | cons p rest ih =>
      intro reg hx hfn
      exact ih _ (bindComps_keep p.1 x c p.2.reverse reg hx hfn) hfn

/-- C8: for every module-to-components map, `loadComponentModules`
(lines 278-295) invokes the external loader exactly once, with exactly the
distinct module names of the map (in key order, including the empty list
when the map is empty), runs the onward continuation exactly once after the
loader completes (the single `cb()` of line 293, which in this embedding is
the unconditional return to the caller), and leaves every component whose
creator is already a function untouched (the skip of line 290). -/
theorem c8_load_modules (reg : Registry) (maps : List (String × List String))
    (hnd : (maps.map Prod.fst).Nodup) :
    (loadComponentModulesReg reg maps).2 = maps.map Prod.fst ∧
    (loadComponentModulesReg reg maps).2.Nodup ∧
    (∀ cid c, lookupC reg cid = some c → creatorIsFn c = true →
      lookupC (loadComponentModulesReg reg maps).1 cid = some c) := by
  refine ⟨rfl, hnd, ?_⟩
  intro cid c hx hfn
  exact bindMods_keep cid c maps.reverse reg hx hfn

/-- C8 witness: two modules backing one pending component each; the
component whose creator is already a function survives unchanged. -/
theorem c8_witness :
    (c8maps.map Prod.fst).Nodup ∧
    lookupC c8reg xId = some c8compX ∧ creatorIsFn c8compX = true ∧
    (loadComponentModulesReg c8reg c8maps).2 = c8maps.map Prod.fst ∧
    (loadComponentModulesReg c8reg c8maps).2.Nodup ∧
    lookupC (loadComponentModulesReg c8reg c8maps).1 xId = some c8compX := by
  have h := c8_load_modules c8reg c8maps (by decide)
  exact ⟨by decide, rfl, rfl, h.1, h.2.1, h.2.2 xId c8compX rfl rfl⟩

/-! ## createComponent field lemmas -/

theorem createCreator_keeps (c : Component) (mod : Option String) :
    (createCreator c mod).id = c.id ∧
    (createCreator c mod).args = c.args ∧
    (createCreator c mod).properties = c.properties ∧
    (createCreator c mod).anonyDeps = c.anonyDeps := by
  unfold createCreator
  dsimp only
  split <;> exact ⟨rfl, rfl, rfl, rfl⟩

theorem createComponent_id (id : String) (cfg : Config) :
    (createComponent id cfg).id = id := by
  unfold createComponent
  dsimp only
  split
  · exact (createCreator_keeps _ _).1
  · rfl

theorem createComponent_args (id : String) (cfg : Config) :
    (createComponent id cfg).args = cfg.args.getD [] := by
  unfold createComponent
  dsimp only
  split
  · exact (createCreator_keeps _ _).2.1
  · rfl

theorem createComponent_properties (id : String) (cfg : Config) :
    (createComponent id cfg).properties = cfg.properties.getD [] := by
  unfold createComponent
  dsimp only
  split
  · exact (createCreator_keeps _ _).2.2.1
  · rfl

theorem createComponent_anonyDeps (id : String) (cfg : Config) :
    (createComponent id cfg).anonyDeps = none := by
  unfold createComponent
  dsimp only
  split
  · exact (createCreator_keeps _ _).2.2.2
  · rfl

/-! ## Claim C5 -/

theorem transferDepsRev_import_missing (addC : AddC) (o role m : String) (ov : Config)
    (rest : List Dep) :
    ∀ (l : List Dep) (reg : Registry), (∀ d ∈ l, d.isImp = false) → lookupC reg m = none →
    transferDepsRev addC o role reg (l ++ Dep.imp m ov :: rest) =
      .error (.importMissing m) := by
  intro l
  induction l with
  | nil =>
      intro reg _ hm
      simp [transferDepsRev, createAnonymousComponent, hm]
  | cons d t ih =>
      intro reg hl hm
      have hd : d.isImp = false := hl d (by simp)
      have hrec := ih reg (fun x hx => hl x (by simp [hx])) hm
      cases d with
      | imp mm oo => exact absurd hd (by simp [Dep.isImp])
      | lit n => simp [transferDepsRev, hrec]
      | ref s => simp [transferDepsRev, hrec]

/-- C5: a dependency config whose `$import` names an id with no registered
component definition makes registration fail synchronously, at
`addComponent` time, with the configuration error of lines 237-239. Stated
for a registry in its ordinary state (the JS-stringified object key of the
line-111 bug is unregistered), a fresh id distinct from the missing import
target, and the faulty import being the first one the reverse argument walk
of lines 259-266 encounters. -/
theorem c5_import_missing_throws (fuel : Nat) (reg : Registry) (k m : String)
    (ov : Config) (cfg : Config) (pre post : List Dep)
    (hobj : lookupC reg objKeyStr = none)
    (hkm : k ≠ m)
    (hm : lookupC reg m = none)
    (hpost : ∀ d ∈ post, d.isImp = false)
    (hargs : cfg.args = some (pre ++ Dep.imp m ov :: post)) :
    addComponentOne (fuel + 1) reg k cfg = .error (.importMissing m) := by
  unfold addComponentOne addComponentMap
  have hobj2 : (lookupC reg objKeyStr).isSome = false := by simp [hobj]
  have hreg : regLoop reg [(k, cfg)] =
      (insertC reg k (createComponent k cfg), [k], []) := by
    simp [regLoop, hobj2]
  rw [hreg]
  have hm1 : lookupC (insertC reg k (createComponent k cfg)) m = none := by
    rw [lookupC_insertC]
    simp [hkm, hm]
  have hlook : lookupC (insertC reg k (createComponent k cfg)) k =
      some (createComponent k cfg) := by
    rw [lookupC_insertC]
    simp
  have hrevargs : (createComponent k cfg).args.reverse =
      post.reverse ++ Dep.imp m ov :: pre.reverse := by
    rw [createComponent_args, hargs]
    simp
  have herr : transferAnonymous (addComponentMap fuel)
      (insertC reg k (createComponent k cfg)) (createComponent k cfg) =
      .error (.importMissing m) := by
    unfold transferAnonymous
    rw [hrevargs,
      transferDepsRev_import_missing (addComponentMap fuel) (createComponent k cfg).id
        argMarker m ov pre.reverse post.reverse
        (insertC reg k (createComponent k cfg))
        (fun d hd => hpost d (List.mem_reverse.mp hd)) hm1]
  simp [transferLoop, processTransfer, hlook, createComponent_anonyDeps, herr]

/-- C5 witness: registering `own` with `args: [{$import: "missing"}]` on an
empty container throws the configuration error. -/
theorem c5_witness :
    lookupC ([] : Registry) objKeyStr = none ∧ ownId ≠ mId ∧
    lookupC ([] : Registry) mId = none ∧
    (∀ d ∈ ([] : List Dep), d.isImp = false) ∧
    c5cfg.args = some ([] ++ Dep.imp mId Config.empty :: []) ∧
    addComponentOne 1 [] ownId c5cfg = .error (.importMissing mId) :=
  ⟨rfl, by decide, rfl, by decide, rfl,
    c5_import_missing_throws 0 [] ownId mId Config.empty c5cfg [] [] rfl (by decide) rfl
      (by decide) rfl⟩

/-! ## Claim C7: registry invariants of addComponent -/

theorem regMono_refl (r : Registry) : regMono r r := fun _ h => h

theorem regMono_trans {r1 r2 r3 : Registry} (h1 : regMono r1 r2) (h2 : regMono r2 r3) :
    regMono r1 r3 := fun x h => h2 x (h1 x h)

theorem insertC_mono (r : Registry) (k : String) (c : Component) :
    regMono r (insertC r k c) := by
  intro x h
  rw [lookupC_insertC]
  by_cases hk : k = x <;> simp [hk, h]

theorem insertC_self_isSome (r : Registry) (k : String) (c : Component) :
    (lookupC (insertC r k c) k).isSome = true := by
  rw [lookupC_insertC]
  simp

theorem insertC_objAbsent {r : Registry} (h : objAbsent r) {k : String}
    (hk : k ≠ objKeyStr) (c : Component) : objAbsent (insertC r k c) := by
  unfold objAbsent at h ⊢
  rw [lookupC_insertC]
  simp [hk, h]

theorem listPrefix_append (p t : List Char) : p.isPrefixOf (p ++ t) = true := by
  induction p with
  | nil => simp [List.isPrefixOf]
  | cons c cs ih => simp [List.isPrefixOf, ih]

theorem listInfix_of_prefix (pat s : List Char) (h : pat.isPrefixOf s = true) :
    listInfix pat s = true := by
  cases s with
  | nil =>
      cases pat with
      | nil => rfl
      | cons c cs => exact absurd h (by simp [List.isPrefixOf])
  | cons c t => simp [listInfix, h]

theorem strData_append (a b : String) : (a ++ b).toList = a.toList ++ b.toList := rfl

theorem synthId_contains (o role m : String) :
    strContains (synthId o role m) anonyMarker = true := by
  unfold synthId
  set raw := o ++ dashS ++ role ++ m with hraw
  by_cases h : strContains raw anonyMarker
  · simp only [h, if_true]
    unfold strContains at h ⊢
    rw [strData_append]
    have he : emptyS.toList = [] := rfl
    rw [he]
    simpa using h
  · simp only [h, if_false]
    unfold strContains
    rw [strData_append]
    exact listInfix_of_prefix _ _ (listPrefix_append _ _)

theorem synthId_ne_objKey (o role m : String) : synthId o role m ≠ objKeyStr := by
  intro h
  exact absurd (h ▸ synthId_contains o role m) (by decide)

theorem caGood {addC : AddC} (hA : AddGood addC) (reg : Registry) (o m : String)
    (ov : Config) (role : String) (out : Registry × String × List String)
    (hobj : objAbsent reg)
    (h : createAnonymousComponent addC reg o m ov role = .ok out) :
    objAbsent out.1 ∧ regMono reg out.1 ∧ out.2.1 = synthId o role m ∧
    (lookupC out.1 (synthId o role m)).isSome = true := by
  unfold createAnonymousComponent at h
  cases h1 : lookupC reg m with
  | none => rw [h1] at h; exact absurd h (by simp)
  | some refC =>
      rw [h1] at h
      dsimp only at h
      cases h2 : addC reg [(synthId o role m, mergeConfig refC ov)] with
      | error e => rw [h2] at h; exact absurd h (by simp)
      | ok p =>
          rw [h2] at h
          obtain ⟨reg1, w1⟩ := p
          have hout : ((reg1, synthId o role m, w1) :
              Registry × String × List String) = out := by
            simpa using h
          subst hout
          have hg := hA reg [(synthId o role m, mergeConfig refC ov)] (reg1, w1)
            (by
              intro q hq
              rw [List.mem_singleton] at hq
              subst hq
              exact synthId_ne_objKey o role m)
            hobj h2
          exact ⟨hg.1, hg.2.1, rfl,
            hg.2.2 (synthId o role m, mergeConfig refC ov) (List.mem_singleton.mpr rfl)⟩

theorem tdGood {addC : AddC} (hA : AddGood addC) (o role : String) :
    ∀ (l : List Dep) (reg : Registry)
      (out : Registry × List Dep × List String × List String),
    objAbsent reg → transferDepsRev addC o role reg l = .ok out →
    objAbsent out.1 ∧ regMono reg out.1 ∧
    out.2.1 = l.map (depSubst o role) ∧
    out.2.2.1 = depImportIds o role l ∧
    (∀ s ∈ depImportIds o role l, (lookupC out.1 s).isSome = true) := by
  intro l
  induction l with
  | nil =>
      intro reg out hobj h
      have hout : ((reg, [], [], []) :
          Registry × List Dep × List String × List String) = out := by
        simpa [transferDepsRev] using h
      subst hout
      exact ⟨hobj, regMono_refl reg, rfl, rfl, by simp [depImportIds]⟩
  | cons d t ih =>
      intro reg out hobj h
      cases d with
      | imp m ov =>
          rw [transferDepsRev] at h
          cases h1 : createAnonymousComponent addC reg o m ov role with
          | error e => rw [h1] at h; exact absurd h (by simp)
          | ok p1 =>
              rw [h1] at h
              obtain ⟨reg1, sid, w1⟩ := p1
              dsimp only at h
              have hca := caGood hA reg o m ov role (reg1, sid, w1) hobj h1
              obtain ⟨hobj1, hmono1, hsid, hpres⟩ := hca
              cases h2 : transferDepsRev addC o role reg1 t with
              | error e => rw [h2] at h; exact absurd h (by simp)
              | ok p2 =>
                  rw [h2] at h
                  obtain ⟨reg2, t1, ids1, w2⟩ := p2
                  have hout : ((reg2, Dep.ref sid :: t1, sid :: ids1, w1 ++ w2) :
                      Registry × List Dep × List String × List String) = out := by
                    simpa using h
                  subst hout
                  have hrec := ih reg1 (reg2, t1, ids1, w2) hobj1 h2
                  obtain ⟨hobj2, hmono2, ht1, hids1, hpres2⟩ := hrec
                  try dsimp only at hobj1 hmono1 hpres hobj2 hmono2 ht1 hids1 hpres2
                  dsimp at hsid ⊢
                  subst hsid
                  refine ⟨hobj2, regMono_trans hmono1 hmono2, ?_, ?_, ?_⟩
                  · simp [ht1, depSubst]
                  · simp [hids1, depImportIds]
                  · intro s hs
                    simp only [depImportIds, List.filterMap_cons] at hs
                    rcases List.mem_cons.mp hs with hs1 | hs2
                    · subst hs1
                      exact hmono2 _ hpres
                    · exact hpres2 s hs2
      | lit n =>
          simp only [transferDepsRev] at h
          cases h2 : transferDepsRev addC o role reg t with
          | error e => rw [h2] at h; exact absurd h (by simp)
          | ok p2 =>
              rw [h2] at h
              obtain ⟨reg2, t1, ids1, w2⟩ := p2
              have hout : ((reg2, Dep.lit n :: t1, ids1, w2) :
                  Registry × List Dep × List String × List String) = out := by
                simpa using h
              subst hout
              have hrec := ih reg (reg2, t1, ids1, w2) hobj h2
              obtain ⟨hobj2, hmono2, ht1, hids1, hpres2⟩ := hrec
              try dsimp only at hobj2 hmono2 ht1 hids1 hpres2
              exact ⟨hobj2, hmono2, by simp [ht1, depSubst],
                by simp [hids1, depImportIds], fun s hs => hpres2 s (by
                  simpa [depImportIds] using hs)⟩
      | ref r0 =>
          simp only [transferDepsRev] at h
          cases h2 : transferDepsRev addC o role reg t with
          | error e => rw [h2] at h; exact absurd h (by simp)
          | ok p2 =>
              rw [h2] at h
              obtain ⟨reg2, t1, ids1, w2⟩ := p2
              have hout : ((reg2, Dep.ref r0 :: t1, ids1, w2) :
                  Registry × List Dep × List String × List String) = out := by
                simpa using h
              subst hout
              have hrec := ih reg (reg2, t1, ids1, w2) hobj h2
              obtain ⟨hobj2, hmono2, ht1, hids1, hpres2⟩ := hrec
              try dsimp only at hobj2 hmono2 ht1 hids1 hpres2
              exact ⟨hobj2, hmono2, by simp [ht1, depSubst],
                by simp [hids1, depImportIds], fun s hs => hpres2 s (by
                  simpa [depImportIds] using hs)⟩

theorem tpGood {addC : AddC} (hA : AddGood addC) (o : String) :
    ∀ (l : List (String × Dep)) (reg : Registry)
      (out : Registry × List (String × Dep) × List String × List String),
    objAbsent reg → transferProps addC o reg l = .ok out →
    objAbsent out.1 ∧ regMono reg out.1 ∧
    out.2.1 = l.map (propSubst o) ∧
    out.2.2.1 = propImportIds o l ∧
    (∀ s ∈ propImportIds o l, (lookupC out.1 s).isSome = true) := by
  intro l
  induction l with
  | nil =>
      intro reg out hobj h
      have hout : ((reg, [], [], []) :
          Registry × List (String × Dep) × List String × List String) = out := by
        simpa [transferProps] using h
      subst hout
      exact ⟨hobj, regMono_refl reg, rfl, rfl, by simp [propImportIds]⟩
  | cons p t ih =>
      intro reg out hobj h
      obtain ⟨n, d⟩ := p
      cases d with
      | imp m ov =>
          rw [transferProps] at h
          cases h1 : createAnonymousComponent addC reg o m ov propMarker with
          | error e => rw [h1] at h; exact absurd h (by simp)
          | ok p1 =>
              rw [h1] at h
              obtain ⟨reg1, sid, w1⟩ := p1
              dsimp only at h
              have hca := caGood hA reg o m ov propMarker (reg1, sid, w1) hobj h1
              obtain ⟨hobj1, hmono1, hsid, hpres⟩ := hca
              cases h2 : transferProps addC o reg1 t with
              | error e => rw [h2] at h; exact absurd h (by simp)
              | ok p2 =>
                  rw [h2] at h
                  obtain ⟨reg2, t1, ids1, w2⟩ := p2
                  have hout : ((reg2, (n, Dep.ref sid) :: t1, sid :: ids1, w1 ++ w2) :
                      Registry × List (String × Dep) × List String × List String) = out := by
                    simpa using h
                  subst hout
                  have hrec := ih reg1 (reg2, t1, ids1, w2) hobj1 h2
                  obtain ⟨hobj2, hmono2, ht1, hids1, hpres2⟩ := hrec
                  try dsimp only at hobj1 hmono1 hpres hobj2 hmono2 ht1 hids1 hpres2
                  dsimp at hsid ⊢
                  subst hsid
                  refine ⟨hobj2, regMono_trans hmono1 hmono2, ?_, ?_, ?_⟩
                  · simp [ht1, propSubst, depSubst]
                  · simp [hids1, propImportIds]
                  · intro s hs
                    simp only [propImportIds, List.filterMap_cons] at hs
                    rcases List.mem_cons.mp hs with hs1 | hs2
                    · subst hs1
                      exact hmono2 _ hpres
                    · exact hpres2 s hs2
      | lit k =>
          simp only [transferProps] at h
          cases h2 : transferProps addC o reg t with
          | error e => rw [h2] at h; exact absurd h (by simp)
          | ok p2 =>
              rw [h2] at h
              obtain ⟨reg2, t1, ids1, w2⟩ := p2
              have hout : ((reg2, (n, Dep.lit k) :: t1, ids1, w2) :
                  Registry × List (String × Dep) × List String × List String) = out := by
                simpa using h
              subst hout
              have hrec := ih reg (reg2, t1, ids1, w2) hobj h2
              obtain ⟨hobj2, hmono2, ht1, hids1, hpres2⟩ := hrec
              try dsimp only at hobj2 hmono2 ht1 hids1 hpres2
              exact ⟨hobj2, hmono2, by simp [ht1, propSubst, depSubst],
                by simp [hids1, propImportIds], fun s hs => hpres2 s (by
                  simpa [propImportIds] using hs)⟩
      | ref r0 =>
          simp only [transferProps] at h
          cases h2 : transferProps addC o reg t with
          | error e => rw [h2] at h; exact absurd h (by simp)
          | ok p2 =>
              rw [h2] at h
              obtain ⟨reg2, t1, ids1, w2⟩ := p2
              have hout : ((reg2, (n, Dep.ref r0) :: t1, ids1, w2) :
                  Registry × List (String × Dep) × List String × List String) = out := by
                simpa using h
              subst hout
              have hrec := ih reg (reg2, t1, ids1, w2) hobj h2
              obtain ⟨hobj2, hmono2, ht1, hids1, hpres2⟩ := hrec
              try dsimp only at hobj2 hmono2 ht1 hids1 hpres2
              exact ⟨hobj2, hmono2, by simp [ht1, propSubst, depSubst],
                by simp [hids1, propImportIds], fun s hs => hpres2 s (by
                  simpa [propImportIds] using hs)⟩

theorem taGood {addC : AddC} (hA : AddGood addC) (reg : Registry) (c : Component)
    (out : Registry × Component × List String) (hobj : objAbsent reg)
    (h : transferAnonymous addC reg c = .ok out) :
    objAbsent out.1 ∧ regMono reg out.1 ∧
    out.2.1.args = c.args.map (depSubst c.id argMarker) ∧
    out.2.1.properties = c.properties.map (propSubst c.id) ∧
    out.2.1.anonyDeps =
      some (depImportIds c.id argMarker c.args.reverse ++ propImportIds c.id c.properties) ∧
    (∀ s ∈ depImportIds c.id argMarker c.args.reverse ++ propImportIds c.id c.properties,
      (lookupC out.1 s).isSome = true) := by
  unfold transferAnonymous at h
  cases h1 : transferDepsRev addC c.id argMarker reg c.args.reverse with
  | error e => rw [h1] at h; exact absurd h (by simp)
  | ok p1 =>
      rw [h1] at h
      obtain ⟨reg1, argsRev, ids1, w1⟩ := p1
      dsimp only at h
      have htd := tdGood hA c.id argMarker c.args.reverse reg (reg1, argsRev, ids1, w1) hobj h1
      obtain ⟨hobj1, hmono1, hargs1, hids1, hpres1⟩ := htd
      try dsimp only at hobj1 hmono1 hargs1 hids1 hpres1
      cases h2 : transferProps addC c.id reg1 c.properties with
      | error e => rw [h2] at h; exact absurd h (by simp)
      | ok p2 =>
          rw [h2] at h
          obtain ⟨reg2, props1, ids2, w2⟩ := p2
          have htp := tpGood hA c.id c.properties reg1 (reg2, props1, ids2, w2) hobj1 h2
          obtain ⟨hobj2, hmono2, hprops1, hids2, hpres2⟩ := htp
          try dsimp only at hobj2 hmono2 hprops1 hids2 hpres2
          rw [Except.ok.injEq] at h
          subst h
          refine ⟨hobj2, regMono_trans hmono1 hmono2, ?_, ?_, ?_, ?_⟩
          · show argsRev.reverse = c.args.map (depSubst c.id argMarker)
            rw [hargs1]
            simp [← List.map_reverse]
          · exact hprops1
          · show some (ids1 ++ ids2) = _
            rw [hids1, hids2]
          · intro s hs
            rcases List.mem_append.mp hs with hs1 | hs2
            · exact hmono2 _ (hpres1 s hs1)
            · exact hpres2 s hs2

theorem ptGood {addC : AddC} (hA : AddGood addC) (reg : Registry) (idk : String)
    (out : Registry × List String) (hobj : objAbsent reg)
    (h : processTransfer addC reg idk = .ok out) :
    objAbsent out.1 ∧ regMono reg out.1 := by
  unfold processTransfer at h
  cases h1 : lookupC reg idk with
  | none => rw [h1] at h; exact absurd h (by simp)
  | some c =>
      rw [h1] at h
      dsimp only at h
      have hidk : idk ≠ objKeyStr := by
        intro he
        subst he
        rw [hobj] at h1
        exact absurd h1 (by simp)
      by_cases ha : c.anonyDeps.isNone
      · rw [if_pos ha] at h
        cases h2 : transferAnonymous addC reg c with
        | error e => rw [h2] at h; exact absurd h (by simp)
        | ok p2 =>
            rw [h2] at h
            obtain ⟨reg1, c1, w⟩ := p2
            have hta := taGood hA reg c (reg1, c1, w) hobj h2
            dsimp only at h
            rw [Except.ok.injEq] at h
            subst h
            exact ⟨insertC_objAbsent hta.1 hidk _,
              regMono_trans hta.2.1 (insertC_mono _ _ _)⟩
      · rw [if_neg ha] at h
        dsimp only at h
        rw [Except.ok.injEq] at h
        subst h
        exact ⟨insertC_objAbsent hobj hidk _, insertC_mono _ _ _⟩

theorem tlGood {addC : AddC} (hA : AddGood addC) :
    ∀ (ids : List String) (reg : Registry) (out : Registry × List String),
    objAbsent reg → transferLoop addC reg ids = .ok out →
    objAbsent out.1 ∧ regMono reg out.1 := by
  intro ids
  induction ids with
  | nil =>
      intro reg out hobj h
      have hout : ((reg, []) : Registry × List String) = out := by
        simpa [transferLoop] using h
      subst hout
      exact ⟨hobj, regMono_refl reg⟩
  | cons idk rest ih =>
      intro reg out hobj h
      rw [transferLoop] at h
      cases h1 : processTransfer addC reg idk with
      | error e => rw [h1] at h; exact absurd h (by simp)
      | ok p1 =>
          rw [h1] at h
          obtain ⟨reg1, w1⟩ := p1
          dsimp only at h
          have hp := ptGood hA reg idk (reg1, w1) hobj h1
          cases h2 : transferLoop addC reg1 rest with
          | error e => rw [h2] at h; exact absurd h (by simp)
          | ok p2 =>
              rw [h2] at h
              obtain ⟨reg2, w2⟩ := p2
              have hout : ((reg2, w1 ++ w2) : Registry × List String) = out := by
                simpa using h
              subst hout
              have hr := ih reg1 (reg2, w2) hp.1 h2
              exact ⟨hr.1, regMono_trans hp.2 hr.2⟩

theorem regLoopGood : ∀ (m : List (String × Config)) (reg : Registry),
    (∀ p ∈ m, p.1 ≠ objKeyStr) → objAbsent reg →
    objAbsent (regLoop reg m).1 ∧ regMono reg (regLoop reg m).1 ∧
    (∀ p ∈ m, (lookupC (regLoop reg m).1 p.1).isSome = true) ∧
    (regLoop reg m).2.1 = m.map Prod.fst := by
  intro m
  induction m with
  | nil =>
      intro reg _ hobj
      exact ⟨hobj, regMono_refl reg, by simp, rfl⟩
  | cons p rest ih =>
      intro reg hkeys hobj
      obtain ⟨k, cfg⟩ := p
      have hk : k ≠ objKeyStr := hkeys (k, cfg) (by simp)
      have hobj2 : (lookupC reg objKeyStr).isSome = false := by
        unfold objAbsent at hobj
        simp [hobj]
      have hobj3 : objAbsent (insertC reg k (createComponent k cfg)) :=
        insertC_objAbsent hobj hk _
      have hrg := ih (insertC reg k (createComponent k cfg))
        (fun q hq => hkeys q (by simp [hq])) hobj3
      cases hE : regLoop (insertC reg k (createComponent k cfg)) rest with
      | mk r1 q1 =>
          obtain ⟨ids1, ws1⟩ := q1
          rw [hE] at hrg
          dsimp only at hrg
          have hred : regLoop reg ((k, cfg) :: rest) = (r1, k :: ids1, ws1) := by
            rw [regLoop, hobj2, hE]
            simp
          rw [hred]
          dsimp only
          refine ⟨hrg.1, regMono_trans (insertC_mono reg k _) hrg.2.1, ?_, by
            rw [hrg.2.2.2]
            simp⟩
          intro q hq
          rcases List.mem_cons.mp hq with hq1 | hq2
          · subst hq1
            exact hrg.2.1 _ (insertC_self_isSome reg k _)
          · exact hrg.2.2.1 q hq2

theorem addGood : ∀ fuel, AddGood (addComponentMap fuel) := by
  intro fuel
  induction fuel with
  | zero =>
      intro reg m out _ _ h
      exact absurd h (by simp [addComponentMap])
  | succ f ih =>
      intro reg m out hkeys hobj h
      unfold addComponentMap at h
      have hrg := regLoopGood m reg hkeys hobj
      cases hE : regLoop reg m with
      | mk reg1 q =>
          obtain ⟨ids, ws⟩ := q
          rw [hE] at h hrg
          dsimp only at h hrg
          cases h2 : transferLoop (addComponentMap f) reg1 ids.reverse with
          | error e => rw [h2] at h; exact absurd h (by simp)
          | ok p2 =>
              rw [h2] at h
              obtain ⟨reg2, w2⟩ := p2
              have hout : ((reg2, ws ++ w2) : Registry × List String) = out := by
                simpa using h
              subst hout
              have htl := tlGood ih ids.reverse reg1 (reg2, w2) hrg.1 h2
              refine ⟨htl.1, regMono_trans hrg.2.1 htl.2, ?_⟩
              intro q hq
              exact htl.2 _ (hrg.2.2.1 q hq)

/-- C7: registering a component whose args or properties carry `$import`
entries (on a container in its ordinary state) rewrites, for every such
entry, the inline value in place into a reference `\x7b $ref: sid \x7d` whose
synthetic id `sid = synthId owner role importId` concatenates the owning
component's id, a hyphen, the role marker (`$arg.` / `$prop.`) and the
imported id, prepending the reserved anonymous marker unless already
present (lines 241-242); a fresh component is registered under every such
synthetic id, the ids are recorded in the owner's `anonyDeps` list, and the
owner's `argDeps`/`propDeps` are computed only afterwards, from the
rewritten args and properties (lines 120-125). -/
theorem c7_anonymous_expansion (fuel : Nat) (reg : Registry) (k : String) (cfg : Config)
    (reg2 : Registry) (w : List String)
    (hobj : objAbsent reg) (hk : k ≠ objKeyStr)
    (h : addComponentOne (fuel + 1) reg k cfg = .ok (reg2, w)) :
    ∃ c2, lookupC reg2 k = some c2 ∧
      c2.args = (cfg.args.getD []).map (depSubst k argMarker) ∧
      c2.properties = (cfg.properties.getD []).map (propSubst k) ∧
      c2.anonyDeps = some (depImportIds k argMarker (cfg.args.getD []).reverse ++
        propImportIds k (cfg.properties.getD [])) ∧
      c2.argDeps = some (getDepsFromArgs c2.args) ∧
      c2.propDeps = some (getDepsFromProperties c2.properties) ∧
      (∀ sid ∈ c2.anonyDeps.getD [], (lookupC reg2 sid).isSome = true) := by
  unfold addComponentOne addComponentMap at h
  have hobj2 : (lookupC reg objKeyStr).isSome = false := by
    unfold objAbsent at hobj
    simp [hobj]
  have hreg : regLoop reg [(k, cfg)] =
      (insertC reg k (createComponent k cfg), [k], []) := by
    simp [regLoop, hobj2]
  rw [hreg] at h
  dsimp only at h
  rw [show ([k].reverse : List String) = [k] from rfl] at h
  rw [transferLoop] at h
  cases h1 : processTransfer (addComponentMap fuel) (insertC reg k (createComponent k cfg)) k with
  | error e => rw [h1] at h; exact absurd h (by simp)
  | ok p1 =>
      rw [h1] at h
      obtain ⟨reg1a, w1⟩ := p1
      dsimp only at h
      rw [transferLoop] at h
      dsimp only at h
      rw [Except.ok.injEq, Prod.mk.injEq] at h
      obtain ⟨hr2, hw⟩ := h
      subst hr2
      unfold processTransfer at h1
      have hlook : lookupC (insertC reg k (createComponent k cfg)) k =
          some (createComponent k cfg) := by
        rw [lookupC_insertC]
        simp
      rw [hlook] at h1
      dsimp only at h1
      simp only [createComponent_anonyDeps, Option.isNone_none, if_true] at h1
      cases h3 : transferAnonymous (addComponentMap fuel)
          (insertC reg k (createComponent k cfg)) (createComponent k cfg) with
      | error e => rw [h3] at h1; exact absurd h1 (by simp)
      | ok p3 =>
          rw [h3] at h1
          obtain ⟨rega, c1, w1a⟩ := p3
          dsimp only at h1
          rw [Except.ok.injEq, Prod.mk.injEq] at h1
          obtain ⟨hr1, hw1⟩ := h1
          have hobjr : objAbsent (insertC reg k (createComponent k cfg)) :=
            insertC_objAbsent hobj hk _
          have hta := taGood (addGood fuel) _ (createComponent k cfg) (rega, c1, w1a) hobjr h3
          obtain ⟨hobja, hmona, hargs, hprops, hanony, hpres⟩ := hta
          try dsimp only at hobja hmona hargs hprops hanony hpres
          simp only [createComponent_id, createComponent_args,
            createComponent_properties] at hargs hprops hanony hpres
          refine ⟨{ c1 with
            argDeps := some (getDepsFromArgs c1.args)
            propDeps := some (getDepsFromProperties c1.properties) }, ?_, ?_, ?_, ?_, rfl, rfl, ?_⟩
          · rw [← hr1, lookupC_insertC]
            simp
          · exact hargs
          · exact hprops
          · exact hanony
          · intro sid hsid
            rw [← hr1]
            have hm2 := insertC_mono rega k
              { c1 with
                argDeps := some (getDepsFromArgs c1.args)
                propDeps := some (getDepsFromProperties c1.properties) }
            refine hm2 _ (hpres sid ?_)
            have heq : ({ c1 with
                argDeps := some (getDepsFromArgs c1.args)
                propDeps := some (getDepsFromProperties c1.properties) } :
                Component).anonyDeps = c1.anonyDeps := rfl
            rw [heq, hanony] at hsid
            simpa using hsid

/-- C7 witness: `own` with one argument import and one property import of a
registered component `b`. -/
theorem c7_witness :
    objAbsent c7regB ∧ ownId ≠ objKeyStr ∧
    (∃ c2, lookupC c7reg2 ownId = some c2 ∧
      c2.args = (c7cfg.args.getD []).map (depSubst ownId argMarker) ∧
      c2.properties = (c7cfg.properties.getD []).map (propSubst ownId) ∧
      c2.anonyDeps = some (depImportIds ownId argMarker (c7cfg.args.getD []).reverse ++
        propImportIds ownId (c7cfg.properties.getD [])) ∧
      c2.argDeps = some (getDepsFromArgs c2.args) ∧
      c2.propDeps = some (getDepsFromProperties c2.properties) ∧
      (∀ sid ∈ c2.anonyDeps.getD [], (lookupC c7reg2 sid).isSome = true)) :=
  ⟨rfl, by decide,
    c7_anonymous_expansion 3 c7regB ownId c7cfg c7reg2 c7w rfl (by decide) rfl⟩

/-! ## Claims C3 and C6: run lemmas -/

theorem regSameDom_refl (r : Registry) : regSameDom r r := fun _ => rfl

theorem regSameDom_trans {r1 r2 r3 : Registry} (h1 : regSameDom r1 r2)
    (h2 : regSameDom r2 r3) : regSameDom r1 r3 :=
  fun x => (h2 x).trans (h1 x)

theorem regSameDom_none_iff {r r1 : Registry} (h : regSameDom r r1) (x : String) :
    lookupC r1 x = none ↔ lookupC r x = none := by
  have hx := h x
  constructor
  · intro h1
    rw [h1] at hx
    cases he : lookupC r x with
    | none => rfl
    | some c => rw [he] at hx; exact absurd hx (by simp)
  · intro h1
    rw [h1] at hx
    cases he : lookupC r1 x with
    | none => rfl
    | some c => rw [he] at hx; exact absurd hx (by simp)

theorem insertC_sameDom (r : Registry) (k : String) (c : Component)
    (hk : (lookupC r k).isSome = true) : regSameDom r (insertC r k c) := by
  intro x
  rw [lookupC_insertC]
  by_cases h : k = x
  · subst h
    simp [hk]
  · simp [h]

theorem cacheLookup_isObj : ∀ (cache : List (String × JsV)) (x : String) (v : JsV),
    cache.all (fun p => p.2.isObj) = true → cacheLookup cache x = some v →
    v.isObj = true := by
  intro cache
  induction cache with
  | nil => intro x v _ h; exact absurd h (by simp [cacheLookup])
  | cons p rest ih =>
      intro x v hall h
      obtain ⟨k, v1⟩ := p
      simp only [List.all_cons, Bool.and_eq_true] at hall
      rw [cacheLookup] at h
      by_cases hk : k = x
      · rw [if_pos hk] at h
        rw [Option.some.injEq] at h
        subst h
        simpa using hall.1
      · rw [if_neg hk] at h
        exact ih x v (by simpa [List.all_eq_true] using hall.2) h

theorem createInstance_cacheOk (cst : CState) (oc : Option Component)
    (h : cacheOk cst) : cacheOk (createInstance cst oc).1 := by
  cases oc with
  | none => exact h
  | some c =>
      unfold createInstance
      dsimp only
      cases c.scope with
      | static => exact h
      | transient => exact h
      | singleton =>
          dsimp only
          cases hc : cacheLookup cst.cache c.id with
          | some v => exact h
          | none =>
              unfold cacheOk at h ⊢
              simpa [JsV.isObj] using h

theorem createInstance_undef_iff (cst : CState) (oc : Option Component)
    (h : cacheOk cst) : ((createInstance cst oc).2 = JsV.undef ↔ oc = none) := by
  cases oc with
  | none => simp [createInstance]
  | some c =>
      simp only [Option.some_ne_none, iff_false]
      unfold createInstance
      dsimp only
      cases c.scope with
      | static =>
          cases hc : c.creator <;> simp
      | transient => simp
      | singleton =>
          dsimp only
          cases hc : cacheLookup cst.cache c.id with
          | none => simp
          | some v =>
              have hv := cacheLookup_isObj cst.cache c.id v h hc
              cases v <;> simp_all [JsV.isObj]

theorem bindStep_sameDom (reg : Registry) (m cid : String) :
    regSameDom reg (bindStep reg m cid) := by
  unfold bindStep
  cases h1 : lookupC reg cid with
  | none => exact regSameDom_refl reg
  | some c =>
      by_cases h2 : creatorIsFn c
      · simp only [h2, if_true]
        exact regSameDom_refl reg
      · simp only [h2, if_false]
        exact insertC_sameDom reg cid _ (by simp [h1])

theorem bindComps_sameDom (m : String) : ∀ (l : List String) (reg : Registry),
    regSameDom reg (bindComps m reg l) := by
  intro l
  induction l with
  | nil => intro reg; exact regSameDom_refl reg
  | cons cid rest ih =>
      intro reg
      exact regSameDom_trans (bindStep_sameDom reg m cid) (ih (bindStep reg m cid))

theorem bindMods_sameDom : ∀ (maps : List (String × List String)) (reg : Registry),
    regSameDom reg (bindMods reg maps) := by
  intro maps
  induction maps with
  | nil => intro reg; exact regSameDom_refl reg
  | cons p rest ih =>
      intro reg
      exact regSameDom_trans (bindComps_sameDom p.1 p.2.reverse reg) (ih _)

theorem loadCM_sameDom (reg : Registry) (maps : List (String × List String)) :
    regSameDom reg (loadComponentModulesReg reg maps).1 :=
  bindMods_sameDom maps.reverse reg

theorem injGood {getC : GetC} (hG : GetCGood getC) (reg : Registry) (cst : CState)
    (c : Component) (out : InjOut) (hok : cacheOk cst)
    (h : injectDepsRun getC reg cst c = some out) :
    regSameDom reg out.reg ∧ cacheOk out.cst := by
  unfold injectDepsRun at h
  cases h1 : getC reg cst (c.propDeps.getD []) with
  | none => rw [h1] at h; exact absurd h (by simp)
  | some o1 =>
      rw [h1] at h
      dsimp only at h
      have g1 := hG reg cst (c.propDeps.getD []) o1 h1 hok
      cases h2 : getC o1.reg o1.cst (c.setterDeps.getD []) with
      | none => rw [h2] at h; exact absurd h (by simp)
      | some o2 =>
          rw [h2] at h
          have g2 := hG o1.reg o1.cst (c.setterDeps.getD []) o2 h2 g1.2
          rw [Option.some.injEq] at h
          subst h
          exact ⟨regSameDom_trans g1.1 g2.1, g2.2⟩

theorem listGetD_set_self : ∀ (l : List JsV) (i : Nat) (v d : JsV), i < l.length →
    (l.set i v).getD i d = v := by
  intro l
  induction l with
  | nil => intro i v d h; exact absurd h (by simp)
  | cons a t ih =>
      intro i v d h
      cases i with
      | zero => rfl
      | succ n => exact ih n v d (by simpa using h)

theorem listGetD_set_ne : ∀ (l : List JsV) (i j : Nat) (v d : JsV), i ≠ j →
    (l.set i v).getD j d = l.getD j d := by
  intro l
  induction l with
  | nil => intro i j v d _; cases i <;> rfl
  | cons a t ih =>
      intro i j v d h
      cases i with
      | zero =>
          cases j with
          | zero => exact absurd rfl h
          | succ m => rfl
      | succ n =>
          cases j with
          | zero => rfl
          | succ m => exact ih n m v d (fun e => h (by rw [e]))

theorem listGetD_mem : ∀ (l : List String) (j : Nat), j < l.length →
    l.getD j emptyS ∈ l := by
  intro l
  induction l with
  | nil => intro j h; exact absurd h (by simp)
  | cons a t ih =>
      intro j h
      cases j with
      | zero => simp [List.getD]
      | succ n =>
          have := ih n (by simpa using h)
          simpa [List.getD] using List.mem_cons_of_mem a this

theorem ciStep_spec {getC : GetC} (hG : GetCGood getC) (ids : List String)
    (st : CIState) (i : Nat) (st1 : CIState) (hok : cacheOk st.cst)
    (h : ciStep getC ids st i = some st1) :
    regSameDom st.reg st1.reg ∧ cacheOk st1.cst ∧
    st1.slots = st.slots.set i
      (createInstance st.cst (lookupC st.reg (ids.getD i emptyS))).2 := by
  unfold ciStep at h
  dsimp only at h
  cases hcomp : lookupC st.reg (ids.getD i emptyS) with
  | none =>
      rw [hcomp] at h
      dsimp only at h
      rw [Option.some.injEq] at h
      subst h
      exact ⟨regSameDom_refl st.reg, hok, rfl⟩
  | some c =>
      rw [hcomp] at h
      dsimp only at h
      have hcst1 : cacheOk (createInstance st.cst (some c)).1 :=
        createInstance_cacheOk st.cst (some c) hok
      cases hl : (c.setterDeps.isNone && c.auto) with
      | false =>
          simp only [hl, Bool.false_eq_true, if_false] at h
          cases hinj : injectDepsRun getC
              (loadComponentModulesReg st.reg
                (getDependentModules st.reg c [] (c.propDeps.getD []))).1
              (createInstance st.cst (some c)).1 c with
          | none => rw [hinj] at h; exact absurd h (by simp)
          | some inj =>
              rw [hinj] at h
              rw [Option.some.injEq] at h
              subst h
              have hij := injGood hG _ _ c inj hcst1 hinj
              exact ⟨regSameDom_trans (loadCM_sameDom st.reg _) hij.1, hij.2, rfl⟩
      | true =>
          simp only [hl, if_true] at h
          have hins : regSameDom st.reg
              (insertC st.reg (ids.getD i emptyS)
                { c with setterDeps := some (getDepsFromSetters
                    (createInstance st.cst (some c)).2 c.properties) }) :=
            insertC_sameDom _ _ _ (by simpa using congrArg Option.isSome hcomp)
          cases hinj : injectDepsRun getC
              (loadComponentModulesReg
                (insertC st.reg (ids.getD i emptyS)
                  { c with setterDeps := some (getDepsFromSetters
                      (createInstance st.cst (some c)).2 c.properties) })
                (getDependentModules
                  (insertC st.reg (ids.getD i emptyS)
                    { c with setterDeps := some (getDepsFromSetters
                        (createInstance st.cst (some c)).2 c.properties) })
                  { c with setterDeps := some (getDepsFromSetters
                      (createInstance st.cst (some c)).2 c.properties) }
                  (getDependentModules st.reg c [] (c.propDeps.getD []))
                  (({ c with setterDeps := some (getDepsFromSetters
                      (createInstance st.cst (some c)).2 c.properties) } :
                    Component).setterDeps.getD []))).1
              (createInstance st.cst (some c)).1
              { c with setterDeps := some (getDepsFromSetters
                  (createInstance st.cst (some c)).2 c.properties) } with
          | none => rw [hinj] at h; exact absurd h (by simp)
          | some inj =>
              rw [hinj] at h
              rw [Option.some.injEq] at h
              subst h
              have hij := injGood hG _ _ _ inj hcst1 hinj
              exact ⟨regSameDom_trans hins
                (regSameDom_trans (loadCM_sameDom _ _) hij.1), hij.2, rfl⟩

theorem ciAux_spec {getC : GetC} (hG : GetCGood getC) (ids : List String) :
    ∀ (idxs : List Nat) (st st1 : CIState), idxs.Nodup → cacheOk st.cst →
    ciAux getC ids idxs st = some st1 →
    regSameDom st.reg st1.reg ∧ cacheOk st1.cst ∧
    st1.slots.length = st.slots.length ∧
    (∀ j, j ∉ idxs → st1.slots.getD j JsV.undef = st.slots.getD j JsV.undef) ∧
    (∀ j, j ∈ idxs → j < st.slots.length →
      (st1.slots.getD j JsV.undef = JsV.undef ↔
        lookupC st.reg (ids.getD j emptyS) = none)) := by
  intro idxs
  induction idxs with
  | nil =>
      intro st st1 _ hok h
      rw [ciAux, Option.some.injEq] at h
      subst h
      exact ⟨regSameDom_refl st.reg, hok, rfl, fun j _ => rfl, fun j hj => absurd hj (by simp)⟩
  | cons i rest ih =>
      intro st st1 hnd hok h
      rw [ciAux] at h
      cases hstep : ciStep getC ids st i with
      | none => rw [hstep] at h; exact absurd h (by simp)
      | some stA =>
          rw [hstep] at h
          have hs := ciStep_spec hG ids st i stA hok hstep
          obtain ⟨hdomA, hokA, hslotsA⟩ := hs
          rw [List.nodup_cons] at hnd
          have hr := ih stA st1 hnd.2 hokA h
          obtain ⟨hdom1, hok1, hlen1, hout1, hin1⟩ := hr
          have hlenA : stA.slots.length = st.slots.length := by
            rw [hslotsA, List.length_set]
          refine ⟨regSameDom_trans hdomA hdom1, hok1, by rw [hlen1, hlenA], ?_, ?_⟩
          · intro j hj
            have hji : j ≠ i := fun e => hj (by rw [e]; exact List.mem_cons_self i rest)
            have hjr : j ∉ rest := fun e => hj (List.mem_cons_of_mem i e)
            rw [hout1 j hjr, hslotsA, listGetD_set_ne _ _ _ _ _ (fun e => hji e.symm)]
          · intro j hj hjlen
            rcases List.mem_cons.mp hj with hj1 | hj2
            · subst hj1
              have hjr : j ∉ rest := hnd.1
              rw [hout1 j hjr, hslotsA,
                listGetD_set_self _ _ _ _ (by rw [← hlenA] at hjlen; rw [← hlenA]; exact hjlen)]
              exact createInstance_undef_iff st.cst (lookupC st.reg (ids.getD j emptyS)) hok
            · have := hin1 j hj2 (by rw [hlenA]; exact hjlen)
              rw [this]
              exact regSameDom_none_iff hdomA (ids.getD j emptyS)

theorem getRun_good : ∀ fuel, GetCGood (getComponentRun fuel) := by
  intro fuel
  induction fuel with
  | zero =>
      intro reg cst ids out h _
      exact absurd h (by simp [getComponentRun])
  | succ f ih =>
      intro reg cst ids out h hok
      rw [getComponentRun] at h
      try dsimp only at h
      cases hci : createInstancesRun (getComponentRun f)
          (loadComponentModulesReg reg (argModules reg ids)).1 cst ids with
      | none => rw [hci] at h; exact absurd h (by simp)
      | some ci =>
          rw [hci] at h
          rw [Option.some.injEq] at h
          subst h
          unfold createInstancesRun at hci
          by_cases hz : ids.length = 0
          · rw [if_pos hz, Option.some.injEq] at hci
            subst hci
            exact ⟨loadCM_sameDom reg _, hok⟩
          · rw [if_neg hz] at hci
            have ha := ciAux_spec ih ids (List.range ids.length).reverse _ ci
              (List.nodup_reverse.mpr (List.nodup_range ids.length)) hok hci
            exact ⟨regSameDom_trans (loadCM_sameDom reg _) ha.1, ha.2.1⟩

theorem getRun_length (fuel : Nat) (reg : Registry) (cst : CState) (ids : List String)
    (out : RunOut) (hok : cacheOk cst)
    (h : getComponentRun fuel reg cst ids = some out) :
    out.results.length = ids.length := by
  cases fuel with
  | zero => exact absurd h (by simp [getComponentRun])
  | succ f =>
      rw [getComponentRun] at h
      try dsimp only at h
      cases hci : createInstancesRun (getComponentRun f)
          (loadComponentModulesReg reg (argModules reg ids)).1 cst ids with
      | none => rw [hci] at h; exact absurd h (by simp)
      | some ci =>
          rw [hci] at h
          rw [Option.some.injEq] at h
          subst h
          unfold createInstancesRun at hci
          by_cases hz : ids.length = 0
          · rw [if_pos hz, Option.some.injEq] at hci
            subst hci
            simp [hz]
          · rw [if_neg hz] at hci
            have ha := ciAux_spec (getRun_good f) ids (List.range ids.length).reverse _ ci
              (List.nodup_reverse.mpr (List.nodup_range ids.length)) hok hci
            have := ha.2.2.1
            simpa using this

theorem getRun_slots (fuel : Nat) (reg : Registry) (cst : CState) (ids : List String)
    (out : RunOut) (hok : cacheOk cst)
    (h : getComponentRun fuel reg cst ids = some out) :
    ∀ j, j < ids.length →
      (out.results.getD j JsV.undef = JsV.undef ↔
        lookupC reg (ids.getD j emptyS) = none) := by
  cases fuel with
  | zero => exact absurd h (by simp [getComponentRun])
  | succ f =>
      rw [getComponentRun] at h
      try dsimp only at h
      cases hci : createInstancesRun (getComponentRun f)
          (loadComponentModulesReg reg (argModules reg ids)).1 cst ids with
      | none => rw [hci] at h; exact absurd h (by simp)
      | some ci =>
          rw [hci] at h
          rw [Option.some.injEq] at h
          subst h
          unfold createInstancesRun at hci
          intro j hj
          by_cases hz : ids.length = 0
          · omega
          · rw [if_neg hz] at hci
            have ha := ciAux_spec (getRun_good f) ids (List.range ids.length).reverse _ ci
              (List.nodup_reverse.mpr (List.nodup_range ids.length)) hok hci
            have hin := ha.2.2.2.2 j (by simp [hj]) (by simpa using hj)
            dsimp only at hin
            rw [hin]
            exact regSameDom_none_iff (loadCM_sameDom reg (argModules reg ids)) _

theorem getRun_warn (fuel : Nat) (reg : Registry) (cst : CState) (ids : List String)
    (out : RunOut)
    (h : getComponentRun (fuel + 1) reg cst ids = some out) :
    ∀ t ∈ ids, lookupC reg t = none → t ∈ out.tr.warnings := by
  rw [getComponentRun] at h
  try dsimp only at h
  cases hci : createInstancesRun (getComponentRun fuel)
      (loadComponentModulesReg reg (argModules reg ids)).1 cst ids with
  | none => rw [hci] at h; exact absurd h (by simp)
  | some ci =>
      rw [hci] at h
      rw [Option.some.injEq] at h
      subst h
      intro t ht hnone
      show t ∈ (ids.filter fun t => (lookupC reg t).isNone) ++ ci.tr.warnings
      refine List.mem_append.mpr (Or.inl ?_)
      exact List.mem_filter.mpr ⟨ht, by simp [hnone]⟩

/-- C3 counterexample: the claim asserts that for ids [a, b, a] positions 0
and 2 hold the same instance. With `a` registered under the default
transient scope, the run constructs two distinct fresh instances for the
two occurrences of `a` (reverse processing order: slot 2 gets the first
fresh instance, slot 0 the third), so positions 0 and 2 differ. -/
theorem c3_counterexample :
    c3runTrans.map RunOut.results = some [JsV.obj 2, JsV.obj 1, JsV.obj 0] ∧
    JsV.obj 2 ≠ JsV.obj 0 :=
  ⟨rfl, by decide⟩

/-- C3 (amended): the callback receives exactly one result per requested id,
and slot j is undefined exactly when the j-th requested id is unregistered,
for every id list (duplicates allowed) and every container state with a
wellformed singleton cache; for ids [a, b, a], the singleton-scoped run
yields the same instance at positions 0 and 2 with b's instance at
position 1, the transient-scoped run yields two distinct fresh instances at
positions 0 and 2, and an unregistered `a` yields undefined at both, with
b's result still at position 1. -/
theorem c3_results_positional :
    (∀ (reg : Registry) (cst : CState) (ids : List String) (fuel : Nat) (out : RunOut),
      cacheOk cst → getComponentRun fuel reg cst ids = some out →
      out.results.length = ids.length ∧
      ∀ j, j < ids.length →
        (out.results.getD j JsV.undef = JsV.undef ↔
          lookupC reg (ids.getD j emptyS) = none)) ∧
    c3runSing.map RunOut.results = some [JsV.obj 0, JsV.obj 1, JsV.obj 0] ∧
    c3runTrans.map RunOut.results = some [JsV.obj 2, JsV.obj 1, JsV.obj 0] ∧
    c3runMissing.map RunOut.results = some [JsV.undef, JsV.obj 0, JsV.undef] ∧
    JsV.obj 2 ≠ JsV.obj 0 := by
  refine ⟨?_, rfl, rfl, rfl, by decide⟩
  intro reg cst ids fuel out hok h
  exact ⟨getRun_length fuel reg cst ids out hok h, getRun_slots fuel reg cst ids out hok h⟩

/-- C3 witness: the general positional conjunct applied to the concrete
singleton [a, b, a] run. -/
theorem c3_witness :
    cacheOk CState.init ∧ c3outSing.results.length = c3idsABA.length :=
  ⟨rfl, ((c3_results_positional.1) c3regSing CState.init c3idsABA 4 c3outSing rfl rfl).1⟩

/-- C6: requesting an unregistered id is non-fatal: the id is warned
(line 152), its result slot stays undefined, every registered id in the
same batch still resolves to a defined value, and the aggregate callback
fires with one slot per requested id once all pipelines finish (the
exactly-once firing is the countdown property proved for C4). -/
theorem c6_unregistered_nonfatal (fuel : Nat) (reg : Registry) (cst : CState)
    (ids : List String) (out : RunOut) (hok : cacheOk cst)
    (h : getComponentRun (fuel + 1) reg cst ids = some out) :
    out.results.length = ids.length ∧
    (∀ j, j < ids.length → lookupC reg (ids.getD j emptyS) = none →
      out.results.getD j JsV.undef = JsV.undef ∧ ids.getD j emptyS ∈ out.tr.warnings) ∧
    (∀ j, j < ids.length → (lookupC reg (ids.getD j emptyS)).isSome = true →
      out.results.getD j JsV.undef ≠ JsV.undef) := by
  refine ⟨getRun_length _ _ _ _ _ hok h, ?_, ?_⟩
  · intro j hj hnone
    refine ⟨(getRun_slots _ _ _ _ _ hok h j hj).mpr hnone, ?_⟩
    exact getRun_warn fuel reg cst ids out h _ (listGetD_mem ids j hj) hnone
  · intro j hj hsome he
    have hn := (getRun_slots _ _ _ _ _ hok h j hj).mp he
    rw [hn] at hsome
    exact absurd hsome (by simp)

/-- C6 witness: requesting [a, b] with `a` unregistered and `b` registered. -/
theorem c6_witness :
    cacheOk CState.init ∧ c6out.results.length = 2 ∧
    c6out.results.getD 0 JsV.undef = JsV.undef ∧ aId ∈ c6out.tr.warnings ∧
    c6out.results.getD 1 JsV.undef ≠ JsV.undef := by
  have h := c6_unregistered_nonfatal 3 c3regB CState.init [aId, bId] c6out rfl rfl
  refine ⟨rfl, by simpa using h.1, ?_, ?_, ?_⟩
  · exact (h.2.1 0 (by decide) rfl).1
  · exact (h.2.1 0 (by decide) rfl).2
  · exact h.2.2 1 (by decide) rfl
